import Mathlib

/-
Verification of `train_span_scorer.py` (span-scorer training driver).

The Python source is embedded shallowly:
  * tensors of scores / labels become `List ℚ`;
  * Python `l[i:i+m]` slices, `range(0, n, step)` and torch fancy indexing
    become explicit list functions;
  * `torch.topk` becomes a deterministic sort-and-take (the spec leaves
    tie-breaking arbitrary), returning `none` where torch raises;
  * the mutable training / checkpointing state is threaded explicitly.
Components of the repository that are imported by the driver but whose sources
are not available (`evaluator.py`, the span models, the candidate extraction)
are modelled from the spec where a claim needs them; each such definition says
so in its doc comment.
-/

namespace TrainSpanScorer

/-- Python list slice `l[i : i + m]`. -/
def pySlice (l : List α) (i m : ℕ) : List α := (l.drop i).take m

/-- Python `range(0, n, step)` for positive `step`: the mini-batch starting
offsets iterated by `for i in range(0, len(width), batch_size)` (source
line 27). -/
def pyRangeStep (n step : ℕ) : List ℕ :=
  (List.range ((n + step - 1) / step)).map (· * step)

/-- Torch fancy indexing `t[indices]` on a list. Out-of-range indices are
dropped; every use below indexes within bounds. -/
def fancyIndex (l : List α) (indices : List ℕ) : List α :=
  indices.filterMap fun j => l[j]?

/-- Rank-fraction sweep of the dev evaluation (source line 176). -/
def eval_range (mention_type : String) : List ℚ :=
  if mention_type = "events" then [0.2, 0.25, 0.3] else [0.2, 0.25, 0.3, 0.4]

/-- Python `int ( x )` on a nonnegative rational: truncation toward zero,
which is the floor. -/
def pyInt (q : ℚ) : ℕ := ⌊q⌋.toNat

/-- The rank cutoff `int(k * dev_num_of_tokens)` (source line 178). -/
def rankCutoff (k : ℚ) (T : ℕ) : ℕ := pyInt (k * T)

/-- Index comparison used to model `torch.topk`: index `i` comes before `j`
when its score is strictly greater, ties broken by smaller index (the spec
leaves tie-breaking arbitrary; this is one deterministic refinement). -/
def byScoreDesc (scores : List ℚ) (i j : ℕ) : Bool :=
  decide (scores.getD j 0 < scores.getD i 0)
    || (decide (scores.getD i 0 = scores.getD j 0) && decide (i ≤ j))

/-- All span indices, sorted by decreasing score. -/
def sortedIdx (scores : List ℚ) : List ℕ :=
  (List.range scores.length).insertionSort fun i j => byScoreDesc scores i j = true

/-- Model of `torch.topk(all_scores, n, sorted=False)`, indices component
(source line 178): the indices of the `n` largest scores; `none` models the
`RuntimeError` torch raises when `n` exceeds the number of elements. -/
def topkIdx (scores : List ℚ) (n : ℕ) : Option (List ℕ) :=
  if n ≤ scores.length then some ((sortedIdx scores).take n) else none

/-- The vector `rank_preds = torch.zeros(len(all_scores)); rank_preds[i] = 1`
(source lines 179-180). -/
def rankPreds (len : ℕ) (idxs : List ℕ) : List ℚ :=
  (List.range len).map fun i => if i ∈ idxs then 1 else 0

/-- The rank-based prediction vector for fraction `k` over `T` dev tokens. -/
def rankPredsFor (scores : List ℚ) (k : ℚ) (T : ℕ) : Option (List ℚ) :=
  (topkIdx scores (rankCutoff k T)).map (rankPreds scores.length)

/-- Number of spans a prediction vector marks positive. -/
def onesCount (preds : List ℚ) : ℕ := preds.countP fun p => decide (p = 1)

/-- Strict-threshold predictions `(all_scores > 0).to(torch.int)` (source
line 171). -/
def strict_preds (scores : List ℚ) : List ℚ :=
  scores.map fun s => if 0 < s then 1 else 0

/-- Modelled from the spec: `evaluator.py` is not among the given sources; the
spec describes `Evaluation` as computing precision/recall/F1 from predicted
vs. gold binary labels. True positives are the spans predicted `1` whose gold
label is `1`. -/
def tpCount (preds labels : List ℚ) : ℕ :=
  (preds.zip labels).countP fun pl => decide (pl.1 = 1) && decide (pl.2 = 1)

/-- Modelled from the spec: the number of gold-positive spans. -/
def posCount (labels : List ℚ) : ℕ := labels.countP fun l => decide (l = 1)

/-- Modelled from the spec: `Evaluation.get_recall`, recall = TP / gold
positives (0 when there is no gold positive). -/
def get_recall (preds labels : List ℚ) : ℚ :=
  (tpCount preds labels : ℚ) / (posCount labels : ℚ)

/-- One step of the checkpoint rule (source lines 183-186): given the current
`max_dev = (best recall, best epoch)` (first component) and the log of
checkpoint writes (second component), process the observation
`(epoch, recall)` of one `(epoch, k)` pair: on `recall > max_dev[0]` the two
model files are written (logged) and `max_dev` becomes `(recall, epoch)`. -/
def checkpointStep (st : (ℚ × Option ℕ) × List (ℚ × ℕ)) (ob : ℕ × ℚ) :
    (ℚ × Option ℕ) × List (ℚ × ℕ) :=
  if st.1.1 < ob.2 then ((ob.2, some ob.1), st.2 ++ [(ob.2, ob.1)]) else st

/-- The checkpoint state after the in-order sequence `obs` of
`(epoch, recall)` observations produced by the nested epoch × rank-fraction
loop; `max_dev` starts as `(0, None)` (source line 120). -/
def checkpointRun (obs : List (ℕ × ℚ)) : (ℚ × Option ℕ) × List (ℚ × ℕ) :=
  obs.foldl checkpointStep ((0, none), [])

/-- Whether processing the `i`-th observation writes the checkpoint files. -/
def savesAt (obs : List (ℕ × ℚ)) (i : ℕ) : Prop :=
  (checkpointRun (obs.take i)).1.1 < (obs.getD i (0, 0)).2

/-- The checkpoint criterion exactly as the claim states it: the parameter
files are written at step `i` iff the recall observed there strictly exceeds
every previously observed rank-based recall. -/
def savesIffExceedsAllPrevious (obs : List (ℕ × ℚ)) : Prop :=
  ∀ i, i < obs.length →
    (savesAt obs i ↔ ∀ j, j < i → (obs.getD j (0, 0)).2 < (obs.getD i (0, 0)).2)

/-- One mini-batch as assembled in the loop body of
`train_topic_mention_extractor` (source lines 28-32): `batch_start_end`,
`batch_continuous_embeddings` and `batch_width` select the index list
`indices = idx[i:i+batch_size]` with `idx = list(range(len(width)))`, while
`batch_labels` is the plain slice `labels[i:i+batch_size]`. -/
structure Batch (SE CE : Type) where
  start_end : List SE
  continuous_embeddings : List CE
  width : List ℕ
  labels : List ℚ

/-- Assemble the mini-batch starting at offset `i` (source lines 28-32). -/
def mkBatch (start_end : List SE) (continuous_embeddings : List CE)
    (width : List ℕ) (labels : List ℚ) (batch_size i : ℕ) : Batch SE CE :=
  ⟨fancyIndex start_end (pySlice (List.range width.length) i batch_size),
   fancyIndex continuous_embeddings
     (pySlice (List.range width.length) i batch_size),
   fancyIndex width (pySlice (List.range width.length) i batch_size),
   pySlice labels i batch_size⟩

/-- The primitive operations the training step uses, abstracted over the
mutable optimizer/model state `P`: `optimizer.zero_grad()`, the span-embedder
forward `span_repr`, the span-scorer forward, the loss `criterion`,
`loss.backward()` and `optimizer.step()`. -/
structure Ops (P SE CE R : Type) where
  zero_grad : P → P
  span_repr : P → Batch SE CE → R
  span_scorer : P → R → List ℚ
  criterion : List ℚ → List ℚ → ℚ
  backward : P → Batch SE CE → P
  step : P → P

/-- The operations performed by one mini-batch iteration, in source order. -/
inductive TEvent
  | zeroGrad
  | spanEmbed
  | spanScore
  | lossCompute
  | backwardPass
  | optimStep
deriving DecidableEq

/-- Result of training one topic: final state, the accumulated loss the
Python function returns, and the trace of operations performed. -/
structure TrainResult (P : Type) where
  params : P
  accumulate_loss : ℚ
  trace : List TEvent

/-- One iteration of the mini-batch loop (source lines 28-39): zero the
gradients, embed the batch's spans, score them, compute the loss against the
batch labels, backpropagate, accumulate the scalar loss, and apply exactly one
optimizer step. -/
def trainBatchStep (ops : Ops P SE CE R) (b : Batch SE CE)
    (st : TrainResult P) : TrainResult P :=
  let p1 := ops.zero_grad st.params
  let span := ops.span_repr p1 b
  let scores := ops.span_scorer p1 span
  let loss := ops.criterion scores b.labels
  let p2 := ops.backward p1 b
  let p3 := ops.step p2
  ⟨p3, st.accumulate_loss + loss,
   st.trace ++ [.zeroGrad, .spanEmbed, .spanScore, .lossCompute,
     .backwardPass, .optimStep]⟩

/-- The function `train_topic_mention_extractor` (source lines 23-40): iterate the
mini-batch loop over the batch starting offsets
`range(0, len(width), batch_size)`; the Python function returns the
accumulated loss (kept here next to the final state and the trace). -/
def train_topic_mention_extractor (ops : Ops P SE CE R) (start_end : List SE)
    (continuous_embeddings : List CE) (width : List ℕ) (labels : List ℚ)
    (batch_size : ℕ) (p0 : P) : TrainResult P :=
  (pyRangeStep width.length batch_size).foldl
    (fun st i =>
      trainBatchStep ops
        (mkBatch start_end continuous_embeddings width labels batch_size i) st)
    ⟨p0, 0, []⟩

/-- The scalar loss of each mini-batch, in batch order, with the parameter
state threaded through backward and optimizer steps exactly as in the
training loop. -/
def batchLosses (ops : Ops P SE CE R) (start_end : List SE)
    (continuous_embeddings : List CE) (width : List ℕ) (labels : List ℚ)
    (batch_size : ℕ) : List ℕ → P → List ℚ
  | [], _ => []
  | i :: rest, p =>
    let b := mkBatch start_end continuous_embeddings width labels batch_size i
    let p1 := ops.zero_grad p
    ops.criterion (ops.span_scorer p1 (ops.span_repr p1 b)) b.labels
      :: batchLosses ops start_end continuous_embeddings width labels
          batch_size rest (ops.step (ops.backward p1 b))

/-- After the spec's words: "spans within a topic are split into fixed-size
mini-batches (configurable batch size); batch order is the natural enumeration
order" — consecutive chunks of `bs` elements, the last possibly smaller.
Defined independently of the code's batching, to be compared against it. -/
def specChunks (bs : ℕ) (l : List α) : List (List α) :=
  if h : l.length = 0 ∨ bs = 0 then []
  else
    have hlt : (l.drop bs).length < l.length := by
      rw [List.length_drop]
      have h1 : l.length ≠ 0 := (not_or.mp h).1
      have h2 : bs ≠ 0 := (not_or.mp h).2
      omega
    l.take bs :: specChunks bs (l.drop bs)
termination_by l.length

/-- The index structure of one training epoch: the epoch walks the topics in
the shuffled order `perm` (`shuffle(list(range(len(training_set.topic_list))))`,
source line 128) and, inside a topic with `n` candidate spans, the mini-batch
loop visits the index lists `idx[i:i+batch_size]` for
`i in range(0, n, batch_size)` (source lines 26-28). -/
def epochBatches (topicSizes : List ℕ) (perm : List ℕ) (batch_size : ℕ) :
    List (List (List ℕ)) :=
  perm.map fun t =>
    (pyRangeStep (topicSizes.getD t 0) batch_size).map fun i =>
      pySlice (List.range (topicSizes.getD t 0)) i batch_size

/-- Per-candidate-span data of one topic, as delivered by the collaborators of
`get_span_data_from_topic`. -/
structure SpanDatum (SE CE : Type) where
  meta : ℕ × ℕ × ℕ × ℕ
  start_end : SE
  continuous : CE
  width : ℕ
  gold : Bool

/-- The per-topic sequences returned by `get_span_data_from_topic`. -/
structure TopicData (SE CE : Type) where
  span_meta_data : List (ℕ × ℕ × ℕ × ℕ)
  start_end : List SE
  continuous_embeddings : List CE
  width : List ℕ
  mention_labels : List ℚ

/-- Modelled from the spec: `get_span_data_from_topic` (source lines 48-57)
obtains span metadata, span embeddings and labels from collaborators
(`get_all_candidate_from_topic`, `Corpus.get_candidate_labels`) whose sources
are not given; per the spec they produce one entry per candidate span, so each
sequence is one `map` over the topic's candidate list, and `mention_labels`
is 1 on the candidates whose boundaries match a gold mention and 0 elsewhere. -/
def get_span_data_from_topic (cands : List (SpanDatum SE CE)) :
    TopicData SE CE :=
  ⟨cands.map (·.meta), cands.map (·.start_end), cands.map (·.continuous),
   cands.map (·.width), cands.map fun c => if c.gold then 1 else 0⟩

/-- The driver state the dev-evaluation phase can touch: the two models'
parameter sets, `max_dev`, and the contents of the two checkpoint files
(`none` before the first write). -/
structure DevState (P Q : Type) where
  span_repr_params : P
  span_scorer_params : Q
  max_dev : ℚ × Option ℕ
  span_repr_file : Option P
  span_scorer_file : Option Q
deriving DecidableEq

/-- The dev-evaluation phase of one epoch (source lines 146-189): score every
dev span with the current parameters (`scoreOf` abstracts the `no_grad`
forward pass `span_scorer(span_repr(...))` on one topic), pool scores and
labels over all dev topics, then sweep the rank fractions, writing both
checkpoint files per the checkpoint rule; the result is `none` when
`torch.topk` fails because a cutoff exceeds the number of dev spans. -/
def devEvalPhase (scoreOf : P → Q → T → List ℚ) (labelsOf : T → List ℚ)
    (tokensOf : T → ℕ) (mention_type : String) (epoch : ℕ) (topics : List T)
    (st : DevState P Q) : Option (DevState P Q) :=
  let all_scores :=
    (topics.map (scoreOf st.span_repr_params st.span_scorer_params)).flatten
  let all_labels := (topics.map labelsOf).flatten
  let dev_num_of_tokens := (topics.map tokensOf).sum
  (eval_range mention_type).foldlM
    (fun s k =>
      (rankPredsFor all_scores k dev_num_of_tokens).map fun rank_preds =>
        if s.max_dev.1 < get_recall rank_preds all_labels then
          ⟨s.span_repr_params, s.span_scorer_params,
           (get_recall rank_preds all_labels, some epoch),
           some s.span_repr_params, some s.span_scorer_params⟩
        else s)
    st

/-- C4: the rank-fraction sweep is `[0.2, 0.25, 0.3]` exactly when the
configured mention type is `"events"`, and `[0.2, 0.25, 0.3, 0.4]` for every
other mention type. -/
theorem eval_range_by_mention_type (mention_type : String) :
    (mention_type = "events" → eval_range mention_type = [0.2, 0.25, 0.3])
    ∧ (mention_type ≠ "events" →
        eval_range mention_type = [0.2, 0.25, 0.3, 0.4]) := by
  constructor <;> intro h <;> simp [eval_range, h]

/-- Witness for C4 at the two concrete mention types. -/
theorem eval_range_by_mention_type_witness :
    eval_range "events" = [0.2, 0.25, 0.3]
    ∧ eval_range "entities" = [0.2, 0.25, 0.3, 0.4] :=
  ⟨(eval_range_by_mention_type "events").1 rfl,
   (eval_range_by_mention_type "entities").2 (by decide)⟩

lemma sortedIdx_perm (scores : List ℚ) :
    (sortedIdx scores).Perm (List.range scores.length) :=
  List.perm_insertionSort _ _

lemma sortedIdx_length (scores : List ℚ) :
    (sortedIdx scores).length = scores.length := by
  rw [(sortedIdx_perm scores).length_eq, List.length_range]

lemma sortedIdx_nodup (scores : List ℚ) : (sortedIdx scores).Nodup :=
  (sortedIdx_perm scores).nodup_iff.mpr (List.nodup_range _)

lemma mem_sortedIdx_lt (scores : List ℚ) (j : ℕ) (hj : j ∈ sortedIdx scores) :
    j < scores.length := by
  have := (sortedIdx_perm scores).mem_iff.mp hj
  simpa [List.mem_range] using this

lemma countP_mem_range (idxs : List ℕ) (len : ℕ) (hn : idxs.Nodup)
    (hb : ∀ j ∈ idxs, j < len) :
    (List.range len).countP (fun i => decide (i ∈ idxs)) = idxs.length := by
  rw [List.countP_eq_length_filter]
  have hnd : ((List.range len).filter fun i => decide (i ∈ idxs)).Nodup :=
    (List.nodup_range len).filter _
  have hfs : ((List.range len).filter fun i => decide (i ∈ idxs)).toFinset
      = idxs.toFinset := by
    ext x
    simp only [List.mem_toFinset, List.mem_filter, List.mem_range,
      decide_eq_true_eq]
    exact ⟨fun h => h.2, fun h => ⟨hb x h, h⟩⟩
  calc ((List.range len).filter fun i => decide (i ∈ idxs)).length
      = ((List.range len).filter fun i => decide (i ∈ idxs)).toFinset.card :=
        (List.toFinset_card_of_nodup hnd).symm
    _ = idxs.toFinset.card := by rw [hfs]
    _ = idxs.length := List.toFinset_card_of_nodup hn

lemma onesCount_rankPreds (len : ℕ) (idxs : List ℕ) (hn : idxs.Nodup)
    (hb : ∀ j ∈ idxs, j < len) :
    onesCount (rankPreds len idxs) = idxs.length := by
  unfold onesCount rankPreds
  rw [List.countP_map]
  have hfun : ((fun p => decide (p = (1:ℚ)))
      ∘ fun i => if i ∈ idxs then (1:ℚ) else 0) = fun i => decide (i ∈ idxs) := by
    funext i
    by_cases h : i ∈ idxs <;> simp [h]
  rw [hfun, countP_mem_range idxs len hn hb]

lemma topkIdx_take (scores : List ℚ) (n : ℕ) (h : n ≤ scores.length) :
    topkIdx scores n = some ((sortedIdx scores).take n) := by
  unfold topkIdx
  rw [if_pos h]

lemma take_sortedIdx_nodup (scores : List ℚ) (n : ℕ) :
    ((sortedIdx scores).take n).Nodup :=
  (List.take_sublist n _).nodup (sortedIdx_nodup scores)

lemma take_sortedIdx_bounds (scores : List ℚ) (n : ℕ) :
    ∀ j ∈ (sortedIdx scores).take n, j < scores.length := fun j hj =>
  mem_sortedIdx_lt scores j (List.take_subset n _ hj)

lemma take_sortedIdx_length (scores : List ℚ) (n : ℕ) (h : n ≤ scores.length) :
    ((sortedIdx scores).take n).length = n := by
  rw [List.length_take, sortedIdx_length]
  exact min_eq_left h

lemma rankCutoff_eq {k : ℚ} {T m : ℕ} (h1 : (m : ℚ) ≤ k * T)
    (h2 : k * T < m + 1) : rankCutoff k T = m := by
  unfold rankCutoff pyInt
  have hf : ⌊k * (T : ℚ)⌋ = (m : ℤ) := by
    rw [Int.floor_eq_iff]
    exact ⟨by exact_mod_cast h1, by exact_mod_cast h2⟩
  rw [hf, Int.toNat_natCast]

/-- C1 (amended): for every fraction `k` and dev token total `T`, when the
cutoff `int(k·T)` (truncation, not rounding) does not exceed the number of dev
spans, the rank-based prediction vector exists and marks exactly `int(k·T)`
spans positive. -/
theorem rank_ones_eq_trunc (scores : List ℚ) (k : ℚ) (T : ℕ)
    (h : rankCutoff k T ≤ scores.length) :
    ∃ preds, rankPredsFor scores k T = some preds
      ∧ onesCount preds = rankCutoff k T := by
  refine ⟨rankPreds scores.length ((sortedIdx scores).take (rankCutoff k T)),
    ?_, ?_⟩
  · unfold rankPredsFor
    rw [topkIdx_take scores _ h]
    rfl
  · rw [onesCount_rankPreds _ _ (take_sortedIdx_nodup scores _)
      (take_sortedIdx_bounds scores _)]
    exact take_sortedIdx_length scores _ h

/-- Witness for C1 (amended): 3 dev spans, k = 1/4, T = 8, cutoff 2. -/
theorem rank_ones_eq_trunc_witness :
    rankCutoff (1/4) 8 ≤ ([3, 1, 2] : List ℚ).length
    ∧ ∃ preds, rankPredsFor [3, 1, 2] (1/4) 8 = some preds
        ∧ onesCount preds = rankCutoff (1/4) 8 := by
  have hcut : rankCutoff (1/4) 8 = 2 :=
    rankCutoff_eq (by norm_num) (by norm_num)
  exact ⟨by rw [hcut]; decide,
    rank_ones_eq_trunc [3, 1, 2] (1/4) 8 (by rw [hcut]; decide)⟩

/-- C1 fails as stated: with 5 dev spans, fraction k = 3/10 and T = 9 dev
tokens, the code marks `int(2.7) = 2` spans positive while the claim's
`round(2.7)` is 3. -/
theorem rank_ones_round_counterexample :
    ¬ ∀ preds, rankPredsFor [5, 4, 3, 2, 1] (3/10) 9 = some preds →
        (onesCount preds : ℤ) = round (((3:ℚ)/10) * (9:ℕ)) := by
  intro h
  have hcut : rankCutoff (3/10) 9 = 2 :=
    rankCutoff_eq (by norm_num) (by norm_num)
  have h1 := h [1, 1, 0, 0, 0] (by unfold rankPredsFor; rw [hcut]; decide)
  have h2 : round (((3:ℚ)/10) * (9:ℕ)) = 3 := by norm_num [round_eq]
  rw [h2] at h1
  norm_num [onesCount, List.countP_cons] at h1

/-- C10: when the cutoff `int(k·T)` does not exceed the number of dev spans,
the top-k selection returns exactly that many distinct in-range span indices
and the prediction vector marks exactly that many spans positive; when the
cutoff exceeds the number of spans, the evaluation step fails (models the
`RuntimeError` raised by `torch.topk`) rather than selecting fewer spans. -/
theorem topk_cutoff_safety (scores : List ℚ) (k : ℚ) (T : ℕ) :
    (rankCutoff k T ≤ scores.length →
      ∃ idxs, topkIdx scores (rankCutoff k T) = some idxs
        ∧ idxs.Nodup ∧ idxs.length = rankCutoff k T
        ∧ (∀ j ∈ idxs, j < scores.length)
        ∧ rankPredsFor scores k T = some (rankPreds scores.length idxs)
        ∧ onesCount (rankPreds scores.length idxs) = rankCutoff k T)
    ∧ (scores.length < rankCutoff k T → rankPredsFor scores k T = none) := by
  constructor
  · intro h
    refine ⟨(sortedIdx scores).take (rankCutoff k T),
      topkIdx_take scores _ h, take_sortedIdx_nodup scores _,
      take_sortedIdx_length scores _ h, take_sortedIdx_bounds scores _,
      ?_, ?_⟩
    · unfold rankPredsFor
      rw [topkIdx_take scores _ h]
      rfl
    · rw [onesCount_rankPreds _ _ (take_sortedIdx_nodup scores _)
        (take_sortedIdx_bounds scores _)]
      exact take_sortedIdx_length scores _ h
  · intro h
    unfold rankPredsFor topkIdx
    rw [if_neg (not_le.mpr h)]
    rfl

/-- Witness for C10: cutoff 2 fits a 2-span dev set and overflows a 1-span
dev set. -/
theorem topk_cutoff_safety_witness :
    (∃ idxs, topkIdx [5, 6] (rankCutoff (1/2) 4) = some idxs
      ∧ idxs.Nodup ∧ idxs.length = rankCutoff (1/2) 4
      ∧ (∀ j ∈ idxs, j < ([5, 6] : List ℚ).length)
      ∧ rankPredsFor [5, 6] (1/2) 4
          = some (rankPreds ([5, 6] : List ℚ).length idxs)
      ∧ onesCount (rankPreds ([5, 6] : List ℚ).length idxs)
          = rankCutoff (1/2) 4)
    ∧ rankPredsFor [5] (1/2) 4 = none := by
  have hcut : rankCutoff (1/2) 4 = 2 :=
    rankCutoff_eq (by norm_num) (by norm_num)
  exact ⟨(topk_cutoff_safety [5, 6] (1/2) 4).1 (by rw [hcut]; decide),
    (topk_cutoff_safety [5] (1/2) 4).2 (by rw [hcut]; decide)⟩

lemma topkIdx_eq_some {scores : List ℚ} {n : ℕ} {l : List ℕ}
    (h : topkIdx scores n = some l) :
    n ≤ scores.length ∧ l = (sortedIdx scores).take n := by
  unfold topkIdx at h
  by_cases hn : n ≤ scores.length
  · rw [if_pos hn] at h
    exact ⟨hn, (Option.some_inj.mp h).symm⟩
  · rw [if_neg hn] at h
    exact absurd h (by simp)

lemma rankCutoff_mono {k1 k2 : ℚ} (hk : k1 ≤ k2) (T : ℕ) :
    rankCutoff k1 T ≤ rankCutoff k2 T := by
  unfold rankCutoff pyInt
  exact Int.toNat_le_toNat (Int.floor_le_floor
    (mul_le_mul_of_nonneg_right hk (Nat.cast_nonneg T)))

lemma rankPreds_getD (len : ℕ) (idxs : List ℕ) (i : ℕ) :
    (rankPreds len idxs).getD i 0
      = if i < len ∧ i ∈ idxs then 1 else 0 := by
  unfold rankPreds
  rcases lt_or_ge i len with h | h
  · rw [List.getD_eq_getElem?_getD, List.getElem?_map, List.getElem?_range h]
    by_cases hm : i ∈ idxs <;> simp [hm, h]
  · have hnone :
        ((List.range len).map fun i => if i ∈ idxs then (1:ℚ) else 0)[i]?
          = none := by
      rw [List.getElem?_eq_none]
      simpa using h
    rw [List.getD_eq_getElem?_getD, hnone, if_neg fun hc => absurd hc.1 (not_lt.mpr h)]
    rfl

lemma tpCount_mono :
    ∀ (p1 p2 labels : List ℚ), p1.length = p2.length →
      (∀ i, p1.getD i 0 = 1 → p2.getD i 0 = 1) →
      tpCount p1 labels ≤ tpCount p2 labels := by
  intro p1
  induction p1 with
  | nil =>
    intro p2 labels hl _
    have h2 : p2 = [] := List.eq_nil_of_length_eq_zero hl.symm
    subst h2
    exact le_refl _
  | cons a p1 ih =>
    intro p2 labels hl himp
    cases p2 with
    | nil => simp at hl
    | cons b p2 =>
      cases labels with
      | nil => simp [tpCount]
      | cons c labels =>
        have hab : a = 1 → b = 1 := by
          have h0 := himp 0
          simpa using h0
        have htail : tpCount p1 labels ≤ tpCount p2 labels := by
          apply ih p2 labels (by simpa using hl)
          intro i hi
          have hs := himp (i + 1)
          simp only [List.getD_cons_succ] at hs
          exact hs hi
        unfold tpCount at htail ⊢
        rw [List.zip_cons_cons, List.zip_cons_cons, List.countP_cons,
          List.countP_cons]
        dsimp only
        have hite :
            (if (decide (a = (1:ℚ)) && decide (c = (1:ℚ))) = true then 1 else 0)
              ≤ (if (decide (b = (1:ℚ)) && decide (c = (1:ℚ))) = true
                  then 1 else 0) := by
          by_cases hc : a = 1 ∧ c = 1
          · simp [hc.1, hc.2, hab hc.1]
          · have hna : ¬ ((decide (a = (1:ℚ)) && decide (c = (1:ℚ))) = true) := by
              simpa [decide_eq_true_eq] using hc
            rw [if_neg hna]
            exact Nat.zero_le _
        omega

/-- C3: with pairwise-distinct scores and fractions k1 < k2 (k1 ≥ 0), every
span marked positive at fraction k1 is also marked positive at fraction k2,
and the recall computed at k2 is at least the recall computed at k1. -/
theorem topk_subset_recall_mono (scores labels : List ℚ) (hd : scores.Nodup)
    (k1 k2 : ℚ) (h0 : 0 ≤ k1) (hk : k1 < k2) (T : ℕ) (l1 l2 : List ℕ)
    (h1 : topkIdx scores (rankCutoff k1 T) = some l1)
    (h2 : topkIdx scores (rankCutoff k2 T) = some l2) :
    l1 ⊆ l2
    ∧ get_recall (rankPreds scores.length l1) labels
        ≤ get_recall (rankPreds scores.length l2) labels := by
  obtain ⟨hn1, hl1⟩ := topkIdx_eq_some h1
  obtain ⟨hn2, hl2⟩ := topkIdx_eq_some h2
  have hmono : rankCutoff k1 T ≤ rankCutoff k2 T := rankCutoff_mono hk.le T
  have hsub : l1 ⊆ l2 := by
    rw [hl1, hl2]
    intro x hx
    have hrw : (sortedIdx scores).take (rankCutoff k1 T)
        = ((sortedIdx scores).take (rankCutoff k2 T)).take (rankCutoff k1 T) := by
      rw [List.take_take, min_eq_left hmono]
    rw [hrw] at hx
    exact List.take_subset _ _ hx
  refine ⟨hsub, ?_⟩
  unfold get_recall
  have htp : tpCount (rankPreds scores.length l1) labels
      ≤ tpCount (rankPreds scores.length l2) labels := by
    apply tpCount_mono _ _ labels
    · unfold rankPreds
      rw [List.length_map, List.length_map]
    · intro i hi
      rw [rankPreds_getD] at hi ⊢
      by_cases hc : i < scores.length ∧ i ∈ l1
      · rw [if_pos ⟨hc.1, hsub hc.2⟩]
      · rw [if_neg hc] at hi
        exact absurd hi (by norm_num)
  rcases Nat.eq_zero_or_pos (posCount labels) with hz | hp
  · rw [hz]
    norm_num
  · have hps : (0:ℚ) < posCount labels := by exact_mod_cast hp
    exact div_le_div_of_nonneg_right (Nat.cast_le.mpr htp) hps.le

/-- Witness for C3: five distinct scores, k1 = 1/5, k2 = 2/5, T = 5. -/
theorem topk_subset_recall_mono_witness :
    ([0] : List ℕ) ⊆ [0, 1]
    ∧ get_recall (rankPreds ([5, 4, 3, 2, 1] : List ℚ).length [0])
          [1, 0, 1, 0, 0]
        ≤ get_recall (rankPreds ([5, 4, 3, 2, 1] : List ℚ).length [0, 1])
          [1, 0, 1, 0, 0] := by
  have hc1 : rankCutoff (1/5) 5 = 1 := rankCutoff_eq (by norm_num) (by norm_num)
  have hc2 : rankCutoff (2/5) 5 = 2 := rankCutoff_eq (by norm_num) (by norm_num)
  exact topk_subset_recall_mono [5, 4, 3, 2, 1] [1, 0, 1, 0, 0] (by decide)
    (1/5) (2/5) (by norm_num) (by norm_num) 5 [0] [0, 1]
    (by rw [hc1]; decide) (by rw [hc2]; decide)

lemma checkpointStep_pos (st : (ℚ × Option ℕ) × List (ℚ × ℕ)) (ob : ℕ × ℚ)
    (h : st.1.1 < ob.2) :
    checkpointStep st ob = ((ob.2, some ob.1), st.2 ++ [(ob.2, ob.1)]) := by
  unfold checkpointStep
  rw [if_pos h]

lemma checkpointFold_best (l : List (ℕ × ℚ)) :
    ∀ st : (ℚ × Option ℕ) × List (ℚ × ℕ),
      (l.foldl checkpointStep st).1.1 = (l.map Prod.snd).foldl max st.1.1 := by
  induction l with
  | nil => intro st; rfl
  | cons ob t ih =>
    intro st
    rw [List.foldl_cons, ih, List.map_cons, List.foldl_cons]
    congr 1
    unfold checkpointStep
    by_cases h : st.1.1 < ob.2
    · rw [if_pos h]
      exact (max_eq_right h.le).symm
    · rw [if_neg h]
      exact (max_eq_left (not_lt.mp h)).symm

lemma checkpointRun_best (l : List (ℕ × ℚ)) :
    (checkpointRun l).1.1 = (l.map Prod.snd).foldl max 0 := by
  unfold checkpointRun
  rw [checkpointFold_best]

lemma le_foldl_max (t : List ℚ) : ∀ b : ℚ, b ≤ t.foldl max b := by
  induction t with
  | nil => intro b; exact le_refl b
  | cons a t ih => intro b; exact le_trans (le_max_left b a) (ih (max b a))

lemma foldl_max_prefix_le (u : List ℚ) (i : ℕ) :
    (u.take i).foldl max 0 ≤ u.foldl max 0 := by
  conv_rhs => rw [← List.take_append_drop i u]
  rw [List.foldl_append]
  exact le_foldl_max _ _

/-- C2 (amended): across the whole run the tracked best recall `max_dev[0]` is
non-decreasing; the two model parameter files are written at an (epoch, k)
observation iff its rank-based recall strictly exceeds the maximum of the
initial value 0 and all previously observed rank-based recalls; and whenever
they are written, (recall, epoch) is recorded as the new best. -/
theorem checkpoint_rule (obs : List (ℕ × ℚ)) :
    (∀ i j, i ≤ j →
      (checkpointRun (obs.take i)).1.1 ≤ (checkpointRun (obs.take j)).1.1)
    ∧ (∀ i, i < obs.length →
        (savesAt obs i ↔
          ((obs.take i).map Prod.snd).foldl max 0 < (obs.getD i (0, 0)).2))
    ∧ (∀ i, i < obs.length → savesAt obs i →
        (checkpointRun (obs.take (i + 1))).1
          = ((obs.getD i (0, 0)).2, some (obs.getD i (0, 0)).1)) := by
  refine ⟨?_, ?_, ?_⟩
  · intro i j hij
    rw [checkpointRun_best, checkpointRun_best, List.map_take, List.map_take]
    have hrw : (obs.map Prod.snd).take i
        = ((obs.map Prod.snd).take j).take i := by
      rw [List.take_take, min_eq_left hij]
    rw [hrw]
    exact foldl_max_prefix_le _ _
  · intro i _
    unfold savesAt
    rw [checkpointRun_best]
  · intro i hi hs
    have hget : obs.getD i (0, 0) = obs.get ⟨i, hi⟩ := by
      rw [List.getD_eq_getElem?_getD, List.getElem?_eq_getElem hi]
      rfl
    have htake : obs.take (i + 1) = obs.take i ++ [obs.get ⟨i, hi⟩] := by
      rw [List.take_succ, List.getElem?_eq_getElem hi]
      rfl
    unfold savesAt checkpointRun at hs
    rw [hget] at hs
    unfold checkpointRun
    rw [htake, List.foldl_append, List.foldl_cons, List.foldl_nil,
      checkpointStep_pos _ _ hs, hget]

/-- Witness for C2 (amended) on the one-observation run [(epoch 0,
recall 1/2)]. -/
theorem checkpoint_rule_witness :
    ((checkpointRun (([(0, 1/2)] : List (ℕ × ℚ)).take 0)).1.1
        ≤ (checkpointRun (([(0, 1/2)] : List (ℕ × ℚ)).take 1)).1.1)
    ∧ (savesAt [(0, 1/2)] 0 ↔
        ((([(0, 1/2)] : List (ℕ × ℚ)).take 0).map Prod.snd).foldl max 0
          < (([(0, 1/2)] : List (ℕ × ℚ)).getD 0 (0, 0)).2)
    ∧ (checkpointRun (([(0, 1/2)] : List (ℕ × ℚ)).take (0 + 1))).1
        = ((([(0, 1/2)] : List (ℕ × ℚ)).getD 0 (0, 0)).2,
            some (([(0, 1/2)] : List (ℕ × ℚ)).getD 0 (0, 0)).1) := by
  refine ⟨(checkpoint_rule [(0, 1/2)]).1 0 1 (by norm_num),
    (checkpoint_rule [(0, 1/2)]).2.1 0 (by norm_num),
    (checkpoint_rule [(0, 1/2)]).2.2 0 (by norm_num) ?_⟩
  unfold savesAt checkpointRun
  simp

/-- C2 fails as stated at a run whose very first rank-based recall is 0: that
recall vacuously exceeds every previously observed recall, so the claim says
the files are written, yet the code compares against `max_dev = (0, None)` and
does not write. -/
theorem checkpoint_iff_counterexample :
    ¬ savesIffExceedsAllPrevious [(0, 0)] := by
  intro h
  have h0 := (h 0 (by norm_num)).2 (fun j hj => absurd hj (Nat.not_lt_zero j))
  unfold savesAt checkpointRun at h0
  simp at h0

lemma trainFold_spec (ops : Ops P SE CE R) (start_end : List SE)
    (continuous_embeddings : List CE) (width : List ℕ) (labels : List ℚ)
    (batch_size : ℕ) :
    ∀ (starts : List ℕ) (p : P) (a : ℚ) (tr : List TEvent),
      ((starts.foldl
          (fun st i => trainBatchStep ops
            (mkBatch start_end continuous_embeddings width labels batch_size i)
            st)
          ⟨p, a, tr⟩).accumulate_loss
        = a + (batchLosses ops start_end continuous_embeddings width labels
            batch_size starts p).sum)
      ∧ (starts.foldl
          (fun st i => trainBatchStep ops
            (mkBatch start_end continuous_embeddings width labels batch_size i)
            st)
          ⟨p, a, tr⟩).trace
        = tr ++ (List.replicate starts.length
            [TEvent.zeroGrad, TEvent.spanEmbed, TEvent.spanScore,
             TEvent.lossCompute, TEvent.backwardPass, TEvent.optimStep]).flatten := by
  intro starts
  induction starts with
  | nil =>
    intro p a tr
    simp [batchLosses]
  | cons i rest ih =>
    intro p a tr
    rw [List.foldl_cons]
    have hstep : trainBatchStep ops
        (mkBatch start_end continuous_embeddings width labels batch_size i)
        ⟨p, a, tr⟩
        = ⟨ops.step (ops.backward (ops.zero_grad p)
              (mkBatch start_end continuous_embeddings width labels batch_size i)),
           a + ops.criterion
              (ops.span_scorer (ops.zero_grad p)
                (ops.span_repr (ops.zero_grad p)
                  (mkBatch start_end continuous_embeddings width labels
                    batch_size i)))
              (mkBatch start_end continuous_embeddings width labels
                batch_size i).labels,
           tr ++ [TEvent.zeroGrad, TEvent.spanEmbed, TEvent.spanScore,
             TEvent.lossCompute, TEvent.backwardPass, TEvent.optimStep]⟩ := rfl
    rw [hstep]
    obtain ⟨ha, ht⟩ := ih
      (ops.step (ops.backward (ops.zero_grad p)
        (mkBatch start_end continuous_embeddings width labels batch_size i)))
      (a + ops.criterion
        (ops.span_scorer (ops.zero_grad p)
          (ops.span_repr (ops.zero_grad p)
            (mkBatch start_end continuous_embeddings width labels batch_size i)))
        (mkBatch start_end continuous_embeddings width labels batch_size i).labels)
      (tr ++ [TEvent.zeroGrad, TEvent.spanEmbed, TEvent.spanScore,
        TEvent.lossCompute, TEvent.backwardPass, TEvent.optimStep])
    constructor
    · rw [ha]
      show a + _ + _ = a + _
      rw [batchLosses]
      rw [List.sum_cons]
      ring
    · rw [ht]
      rw [List.length_cons, List.replicate_succ, List.flatten_cons,
        List.append_assoc]

/-- C6: for every topic, each mini-batch iteration of the training step
performs, in order, gradient clearing, span embedding, span scoring, loss
computation against the batch's gold labels, backpropagation, and exactly one
optimizer step; and the value `train_topic_mention_extractor` returns equals
the sum of the scalar losses of all its mini-batches. -/
theorem train_topic_loss_sum_and_order (ops : Ops P SE CE R)
    (start_end : List SE) (continuous_embeddings : List CE) (width : List ℕ)
    (labels : List ℚ) (batch_size : ℕ) (p0 : P) :
    (train_topic_mention_extractor ops start_end continuous_embeddings width
        labels batch_size p0).accumulate_loss
      = (batchLosses ops start_end continuous_embeddings width labels
          batch_size (pyRangeStep width.length batch_size) p0).sum
    ∧ (train_topic_mention_extractor ops start_end continuous_embeddings width
        labels batch_size p0).trace
      = (List.replicate (pyRangeStep width.length batch_size).length
          [TEvent.zeroGrad, TEvent.spanEmbed, TEvent.spanScore,
           TEvent.lossCompute, TEvent.backwardPass, TEvent.optimStep]).flatten := by
  obtain ⟨ha, ht⟩ := trainFold_spec ops start_end continuous_embeddings width
    labels batch_size (pyRangeStep width.length batch_size) p0 0 []
  unfold train_topic_mention_extractor
  exact ⟨by rw [ha, zero_add], by rw [ht, List.nil_append]⟩

lemma ceilDiv_succ (m bs : ℕ) (hm : 0 < m) (hbs : 0 < bs) :
    (m + bs - 1) / bs = (m - bs + bs - 1) / bs + 1 := by
  rcases le_or_lt bs m with h | h
  · have h1 : m - bs + bs = m := Nat.sub_add_cancel h
    rw [h1]
    have h2 : m + bs - 1 = (m - 1) + bs := by omega
    rw [h2, Nat.add_div_right _ hbs]
  · have h1 : m - bs = 0 := by omega
    rw [h1]
    have h2 : m + bs - 1 = (m - 1) + bs := by omega
    rw [h2, Nat.add_div_right _ hbs]
    have h3 : (m - 1) / bs = 0 := Nat.div_eq_of_lt (by omega)
    have h4 : (0 + bs - 1) / bs = 0 := Nat.div_eq_of_lt (by omega)
    rw [h3, h4]

lemma pyRangeStep_zero (bs : ℕ) (hbs : 0 < bs) : pyRangeStep 0 bs = [] := by
  unfold pyRangeStep
  have h : (0 + bs - 1) / bs = 0 := Nat.div_eq_of_lt (by omega)
  rw [h]
  rfl

lemma pyRangeStep_pos (m bs : ℕ) (hm : 0 < m) (hbs : 0 < bs) :
    pyRangeStep m bs = 0 :: ((pyRangeStep (m - bs) bs).map (· + bs)) := by
  unfold pyRangeStep
  rw [ceilDiv_succ m bs hm hbs, List.range_succ_eq_map, List.map_cons,
    List.map_map, List.map_map]
  congr 1
  · exact Nat.zero_mul bs
  · congr 1
    funext j
    show (j + 1) * bs = j * bs + bs
    ring

lemma pyBatches_eq_specChunks {α : Type} (bs : ℕ) (hbs : 0 < bs) :
    ∀ (n : ℕ) (l : List α), l.length ≤ n →
      ((pyRangeStep l.length bs).map fun i => pySlice l i bs)
        = specChunks bs l := by
  intro n
  induction n with
  | zero =>
    intro l hl
    have h0 : l.length = 0 := Nat.le_zero.mp hl
    rw [specChunks, dif_pos (Or.inl h0), h0, pyRangeStep_zero bs hbs]
    rfl
  | succ n ih =>
    intro l hl
    by_cases h0 : l.length = 0
    · rw [specChunks, dif_pos (Or.inl h0), h0, pyRangeStep_zero bs hbs]
      rfl
    · have hm : 0 < l.length := Nat.pos_of_ne_zero h0
      rw [specChunks, dif_neg (by push_neg; exact ⟨h0, hbs.ne'⟩)]
      rw [pyRangeStep_pos l.length bs hm hbs, List.map_cons]
      congr 1
      rw [List.map_map]
      have hcomp : ((fun i => pySlice l i bs) ∘ (· + bs))
          = fun i => pySlice (l.drop bs) i bs := by
        funext i
        show pySlice l (i + bs) bs = pySlice (l.drop bs) i bs
        unfold pySlice
        rw [List.drop_drop, Nat.add_comm bs i]
      rw [hcomp,
        show l.length - bs = (l.drop bs).length from
          (List.length_drop bs l).symm]
      exact ih (l.drop bs) (by rw [List.length_drop]; omega)

/-- C7: within each topic the mini-batch loop visits exactly the consecutive
fixed-size chunks (of the configured batch size, last chunk possibly smaller)
of the span indices in natural enumeration order, with no re-shuffling inside
the topic: for every shuffled topic order `perm` of an epoch, the per-topic
batch index lists equal the `specChunks` decomposition, independently of
`perm`; only the order of topics follows the per-epoch shuffle. -/
theorem epoch_batches_natural_order (topicSizes : List ℕ) (perm : List ℕ)
    (batch_size : ℕ) (hbs : 0 < batch_size)
    (hperm : perm.Perm (List.range topicSizes.length)) :
    epochBatches topicSizes perm batch_size
      = perm.map fun t =>
          specChunks batch_size (List.range (topicSizes.getD t 0)) := by
  unfold epochBatches
  refine List.map_congr_left ?_
  intro t _
  have h := pyBatches_eq_specChunks batch_size hbs
    (List.range (topicSizes.getD t 0)).length
    (List.range (topicSizes.getD t 0)) (le_refl _)
  rw [List.length_range] at h
  exact h

/-- Witness for C7 on two topics of sizes 5 and 3, shuffled order [1, 0],
batch size 2. -/
theorem epoch_batches_natural_order_witness :
    epochBatches [5, 3] [1, 0] 2
      = ([1, 0] : List ℕ).map fun t =>
          specChunks 2 (List.range (([5, 3] : List ℕ).getD t 0)) :=
  epoch_batches_natural_order [5, 3] [1, 0] 2 (by norm_num) (by decide)

lemma drop_range (n i : ℕ) : (List.range n).drop i = List.range' i (n - i) := by
  apply List.ext_getElem
  · rw [List.length_drop, List.length_range, List.length_range']
  · intro j h1 h2
    rw [List.getElem_drop, List.getElem_range, List.getElem_range']
    omega

lemma take_range' :
    ∀ (b m i : ℕ), (List.range' i m).take b = List.range' i (min b m) := by
  intro b
  induction b with
  | zero =>
    intro m i
    rw [List.take_zero, Nat.zero_min]
    rfl
  | succ b ih =>
    intro m i
    cases m with
    | zero => simp
    | succ m =>
      rw [List.range'_succ, List.take_succ_cons, ih m (i + 1)]
      have hmin : min (b + 1) (m + 1) = min b m + 1 := by omega
      rw [hmin, List.range'_succ]

lemma filterMap_getElem_range' (l : List α) :
    ∀ (m i : ℕ), i + m ≤ l.length →
      ((List.range' i m).filterMap fun j => l[j]?) = pySlice l i m := by
  intro m
  induction m with
  | zero => intro i _; rfl
  | succ m ih =>
    intro i hi
    have hlt : i < l.length := by omega
    have hhead : ((i :: List.range' (i + 1) m).filterMap fun j => l[j]?)
        = l[i] :: ((List.range' (i + 1) m).filterMap fun j => l[j]?) := by
      simp [List.filterMap_cons, List.getElem?_eq_getElem hlt]
    rw [List.range'_succ, hhead, ih (i + 1) (by omega)]
    unfold pySlice
    rw [List.drop_eq_getElem_cons hlt, List.take_succ_cons]

lemma pySlice_range (n i m : ℕ) :
    pySlice (List.range n) i m = List.range' i (min m (n - i)) := by
  unfold pySlice
  rw [drop_range, take_range']

lemma pySlice_eq_fancyIndex (l : List α) (i m : ℕ) :
    pySlice l i m = fancyIndex l (pySlice (List.range l.length) i m) := by
  rcases le_or_lt i l.length with hi | hi
  · rw [pySlice_range]
    unfold fancyIndex
    rw [filterMap_getElem_range' l (min m (l.length - i)) i (by
      have := Nat.min_le_right m (l.length - i)
      omega)]
    unfold pySlice
    rcases le_or_lt m (l.length - i) with h | h
    · rw [min_eq_left h]
    · have hlen : (l.drop i).length = l.length - i := List.length_drop i l
      rw [min_eq_right h.le, List.take_of_length_le (by rw [hlen]; omega),
        ← hlen, List.take_length]
  · have h1 : pySlice l i m = [] := by
      unfold pySlice
      rw [List.drop_eq_nil_of_le hi.le, List.take_nil]
    have h2 : pySlice (List.range l.length) i m = [] := by
      rw [pySlice_range,
        show l.length - i = 0 by omega, Nat.min_zero]
      rfl
    rw [h1, h2]
    rfl

lemma fancyIndex_length (l : List α) :
    ∀ (idxs : List ℕ), (∀ j ∈ idxs, j < l.length) →
      (fancyIndex l idxs).length = idxs.length := by
  intro idxs
  induction idxs with
  | nil => intro _; rfl
  | cons j t ih =>
    intro hb
    have hj : j < l.length := hb j (List.mem_cons_self j t)
    unfold fancyIndex
    have hhead : ((j :: t).filterMap fun j => l[j]?)
        = l[j] :: (t.filterMap fun j => l[j]?) := by
      simp [List.filterMap_cons, List.getElem?_eq_getElem hj]
    rw [hhead, List.length_cons, List.length_cons]
    have ht := ih fun x hx => hb x (List.mem_cons_of_mem j hx)
    unfold fancyIndex at ht
    omega

lemma pySlice_range_lt (n i m j : ℕ) (hj : j ∈ pySlice (List.range n) i m) :
    j < n := by
  unfold pySlice at hj
  exact List.mem_range.mp (List.drop_subset _ _ (List.take_subset _ _ hj))

/-- C8: for every topic, the span metadata, the three span-embedding
sequences and the labels returned by `get_span_data_from_topic` have equal
length, one entry per candidate span; and every mini-batch preserves the
alignment: the label slice `labels[i:i+batch_size]` selects exactly the same
span positions as the index list `idx[i:i+batch_size]` used to select the
batch's start_end rows, widths and continuous embeddings, and every batch
component has the index list's length. -/
theorem span_data_alignment (cands : List (SpanDatum SE CE))
    (batch_size i : ℕ) :
    ((get_span_data_from_topic cands).span_meta_data.length = cands.length
      ∧ (get_span_data_from_topic cands).start_end.length = cands.length
      ∧ (get_span_data_from_topic cands).continuous_embeddings.length
          = cands.length
      ∧ (get_span_data_from_topic cands).width.length = cands.length
      ∧ (get_span_data_from_topic cands).mention_labels.length = cands.length)
    ∧ (mkBatch (get_span_data_from_topic cands).start_end
          (get_span_data_from_topic cands).continuous_embeddings
          (get_span_data_from_topic cands).width
          (get_span_data_from_topic cands).mention_labels batch_size i).labels
        = fancyIndex (get_span_data_from_topic cands).mention_labels
            (pySlice
              (List.range (get_span_data_from_topic cands).width.length)
              i batch_size)
    ∧ (mkBatch (get_span_data_from_topic cands).start_end
          (get_span_data_from_topic cands).continuous_embeddings
          (get_span_data_from_topic cands).width
          (get_span_data_from_topic cands).mention_labels batch_size
          i).start_end.length
        = (pySlice (List.range (get_span_data_from_topic cands).width.length)
            i batch_size).length
    ∧ (mkBatch (get_span_data_from_topic cands).start_end
          (get_span_data_from_topic cands).continuous_embeddings
          (get_span_data_from_topic cands).width
          (get_span_data_from_topic cands).mention_labels batch_size
          i).continuous_embeddings.length
        = (pySlice (List.range (get_span_data_from_topic cands).width.length)
            i batch_size).length
    ∧ (mkBatch (get_span_data_from_topic cands).start_end
          (get_span_data_from_topic cands).continuous_embeddings
          (get_span_data_from_topic cands).width
          (get_span_data_from_topic cands).mention_labels batch_size
          i).width.length
        = (pySlice (List.range (get_span_data_from_topic cands).width.length)
            i batch_size).length
    ∧ (mkBatch (get_span_data_from_topic cands).start_end
          (get_span_data_from_topic cands).continuous_embeddings
          (get_span_data_from_topic cands).width
          (get_span_data_from_topic cands).mention_labels batch_size
          i).labels.length
        = (pySlice (List.range (get_span_data_from_topic cands).width.length)
            i batch_size).length := by
  have hse : (get_span_data_from_topic cands).start_end.length
      = cands.length := List.length_map _ _
  have hce : (get_span_data_from_topic cands).continuous_embeddings.length
      = cands.length := List.length_map _ _
  have hwi : (get_span_data_from_topic cands).width.length
      = cands.length := List.length_map _ _
  have hla : (get_span_data_from_topic cands).mention_labels.length
      = cands.length := List.length_map _ _
  have hbound : ∀ j ∈ pySlice
      (List.range (get_span_data_from_topic cands).width.length) i batch_size,
      j < cands.length := fun j hj => by
    have := pySlice_range_lt _ i batch_size j hj
    omega
  have hlab : (mkBatch (get_span_data_from_topic cands).start_end
        (get_span_data_from_topic cands).continuous_embeddings
        (get_span_data_from_topic cands).width
        (get_span_data_from_topic cands).mention_labels batch_size i).labels
      = fancyIndex (get_span_data_from_topic cands).mention_labels
          (pySlice (List.range (get_span_data_from_topic cands).width.length)
            i batch_size) := by
    show pySlice (get_span_data_from_topic cands).mention_labels i batch_size
        = _
    rw [pySlice_eq_fancyIndex ((get_span_data_from_topic cands).mention_labels)
      i batch_size, hla, ← hwi]
  refine ⟨⟨List.length_map _ _, hse, hce, hwi, hla⟩, hlab, ?_, ?_, ?_, ?_⟩
  · exact fancyIndex_length _ _ fun j hj => by rw [hse]; exact hbound j hj
  · exact fancyIndex_length _ _ fun j hj => by rw [hce]; exact hbound j hj
  · exact fancyIndex_length _ _ fun j hj => by rw [hwi]; exact hbound j hj
  · rw [hlab]
    exact fancyIndex_length _ _ fun j hj => by rw [hla]; exact hbound j hj

lemma foldlM_option_preserves {σ β γ : Type} (f : σ → β → Option σ)
    (g : σ → γ) (hstep : ∀ s a s', f s a = some s' → g s' = g s) :
    ∀ (l : List β) (s s' : σ), l.foldlM f s = some s' → g s' = g s := by
  intro l
  induction l with
  | nil =>
    intro s s' h
    have hss : s = s' := by simpa using h
    rw [← hss]
  | cons a t ih =>
    intro s s' h
    rw [List.foldlM_cons] at h
    cases hfa : f s a with
    | none =>
      rw [hfa] at h
      exact Option.noConfusion (show (none : Option σ) = some s' from h)
    | some s1 =>
      rw [hfa] at h
      exact (ih s1 s' h).trans (hstep s a s1 hfa)

/-- C9: the dev-evaluation phase reads the two models' parameters to score the
dev spans and may update `max_dev` and the checkpoint files, but leaves both
parameter sets unchanged: whenever the phase completes, the span-embedder and
span-scorer parameters after it equal those before it. -/
theorem devEval_preserves_params (scoreOf : P → Q → T → List ℚ)
    (labelsOf : T → List ℚ) (tokensOf : T → ℕ) (mention_type : String)
    (epoch : ℕ) (topics : List T) (st st' : DevState P Q)
    (h : devEvalPhase scoreOf labelsOf tokensOf mention_type epoch topics st
        = some st') :
    st'.span_repr_params = st.span_repr_params
    ∧ st'.span_scorer_params = st.span_scorer_params := by
  unfold devEvalPhase at h
  constructor
  · refine foldlM_option_preserves _ DevState.span_repr_params ?_ _ st st' h
    intro s k s1 hs
    rcases Option.map_eq_some'.mp hs with ⟨preds, _, hval⟩
    subst hval
    split
    · rfl
    · rfl
  · refine foldlM_option_preserves _ DevState.span_scorer_params ?_ _ st st' h
    intro s k s1 hs
    rcases Option.map_eq_some'.mp hs with ⟨preds, _, hval⟩
    subst hval
    split
    · rfl
    · rfl

/-- Witness for C9 on a one-topic dev set with mention type "events". -/
theorem devEval_preserves_params_witness :
    (devEvalPhase (fun _ _ _ => [(1:ℚ)]) (fun _ => [(1:ℚ)]) (fun _ => 4)
        "events" 0 [()] (⟨7, 8, (0, none), none, none⟩ : DevState ℕ ℕ)
      = some ⟨7, 8, (1, some 0), some 7, some 8⟩)
    ∧ DevState.span_repr_params
        (⟨7, 8, (1, some 0), some 7, some 8⟩ : DevState ℕ ℕ)
      = DevState.span_repr_params
        (⟨7, 8, (0, none), none, none⟩ : DevState ℕ ℕ)
    ∧ DevState.span_scorer_params
        (⟨7, 8, (1, some 0), some 7, some 8⟩ : DevState ℕ ℕ)
      = DevState.span_scorer_params
        (⟨7, 8, (0, none), none, none⟩ : DevState ℕ ℕ) := by
  have hc02 : rankCutoff (0.2) 4 = 0 :=
    rankCutoff_eq (by norm_num) (by norm_num)
  have hc025 : rankCutoff (0.25) 4 = 1 :=
    rankCutoff_eq (by norm_num) (by norm_num)
  have hc03 : rankCutoff (0.3) 4 = 1 :=
    rankCutoff_eq (by norm_num) (by norm_num)
  have h02 : rankPredsFor [(1:ℚ)] (0.2) 4 = some [0] := by
    unfold rankPredsFor
    rw [hc02]
    decide
  have h025 : rankPredsFor [(1:ℚ)] (0.25) 4 = some [1] := by
    unfold rankPredsFor
    rw [hc025]
    decide
  have h03 : rankPredsFor [(1:ℚ)] (0.3) 4 = some [1] := by
    unfold rankPredsFor
    rw [hc03]
    decide
  have hr0 : get_recall [(0:ℚ)] [(1:ℚ)] = 0 := by
    unfold get_recall tpCount posCount
    norm_num [List.zip_cons_cons, List.countP_cons, List.countP_nil]
  have hr1 : get_recall [(1:ℚ)] [(1:ℚ)] = 1 := by
    unfold get_recall tpCount posCount
    norm_num [List.zip_cons_cons, List.countP_cons, List.countP_nil]
  have her : eval_range "events" = [0.2, 0.25, 0.3] := by
    unfold eval_range
    rw [if_pos rfl]
  have heval : devEvalPhase (fun _ _ _ => [(1:ℚ)]) (fun _ => [(1:ℚ)])
      (fun _ => 4) "events" 0 [()]
      (⟨7, 8, (0, none), none, none⟩ : DevState ℕ ℕ)
      = some ⟨7, 8, (1, some 0), some 7, some 8⟩ := by
    simp only [devEvalPhase, her, List.map_cons, List.map_nil,
      List.flatten_cons, List.flatten_nil, List.append_nil, List.sum_cons,
      List.sum_nil, Nat.add_zero, List.foldlM_cons, List.foldlM_nil,
      h02, h025, h03, Option.map_some', Option.some_bind, hr0, hr1]
    norm_num
  exact ⟨heval, (devEval_preserves_params _ _ _ _ _ _ _ _ heval).1,
    (devEval_preserves_params _ _ _ _ _ _ _ _ heval).2⟩

lemma zip_flatten_of_align :
    ∀ (L : List (List ℚ × List ℚ)), (∀ p ∈ L, p.1.length = p.2.length) →
      ((L.map Prod.fst).flatten).zip ((L.map Prod.snd).flatten)
        = (L.map fun p => p.1.zip p.2).flatten := by
  intro L
  induction L with
  | nil => intro _; rfl
  | cons p L ih =>
    intro h
    simp only [List.map_cons, List.flatten_cons]
    rw [List.zip_append (h p (List.mem_cons_self p L)),
      ih fun q hq => h q (List.mem_cons_of_mem p hq)]

/-- C5: strict-threshold dev evaluation predicts a span positive iff its score
is strictly greater than 0, and the metrics are computed against the gold
labels pooled over every span of the entire dev split (all topics
concatenated, not per topic): the pooled recall equals the ratio of the sum
over topics of true-positive counts to the sum over topics of gold-positive
counts. -/
theorem strict_eval_pooled (topicScores topicLabels : List (List ℚ))
    (hlen : topicScores.length = topicLabels.length)
    (hal : ∀ p ∈ topicScores.zip topicLabels, p.1.length = p.2.length) :
    (∀ i, i < topicScores.flatten.length →
      ((strict_preds topicScores.flatten).getD i 0 = 1
        ↔ 0 < topicScores.flatten.getD i 0))
    ∧ get_recall (strict_preds topicScores.flatten) topicLabels.flatten
      = (((topicScores.zip topicLabels).map fun p =>
            (tpCount (strict_preds p.1) p.2 : ℚ)).sum)
        / ((topicLabels.map fun ls => (posCount ls : ℚ)).sum) := by
  constructor
  · intro i hi
    unfold strict_preds
    rw [List.getD_eq_getElem?_getD, List.getElem?_map,
      List.getElem?_eq_getElem hi, List.getD_eq_getElem?_getD,
      List.getElem?_eq_getElem hi]
    simp only [Option.map_some', Option.getD_some]
    by_cases h : 0 < topicScores.flatten[i] <;> simp [h]
  · unfold get_recall
    congr 1
    · unfold tpCount
      have hsp : strict_preds topicScores.flatten
          = (topicScores.map strict_preds).flatten := by
        unfold strict_preds
        rw [List.map_flatten]
      have hM1 : (((topicScores.zip topicLabels).map fun p =>
            (strict_preds p.1, p.2)).map Prod.fst)
          = topicScores.map strict_preds := by
        rw [List.map_map]
        have hc : (Prod.fst ∘ fun p : List ℚ × List ℚ =>
            (strict_preds p.1, p.2)) = strict_preds ∘ Prod.fst := rfl
        rw [hc, ← List.map_map, List.map_fst_zip _ _ (le_of_eq hlen)]
      have hM2 : (((topicScores.zip topicLabels).map fun p =>
            (strict_preds p.1, p.2)).map Prod.snd)
          = topicLabels := by
        rw [List.map_map]
        have hc : (Prod.snd ∘ fun p : List ℚ × List ℚ =>
            (strict_preds p.1, p.2)) = Prod.snd := rfl
        rw [hc, List.map_snd_zip _ _ (le_of_eq hlen.symm)]
      have hzip := zip_flatten_of_align
        ((topicScores.zip topicLabels).map fun p => (strict_preds p.1, p.2))
        (by
          intro q hq
          rcases List.mem_map.mp hq with ⟨p, hp, hqe⟩
          rw [← hqe]
          show (strict_preds p.1).length = p.2.length
          unfold strict_preds
          rw [List.length_map]
          exact hal p hp)
      rw [hM1, hM2] at hzip
      rw [hsp, hzip, List.countP_flatten, List.map_map, Nat.cast_list_sum,
        List.map_map, List.map_map]
      rfl
    · unfold posCount
      rw [List.countP_flatten, Nat.cast_list_sum, List.map_map]
      congr 1

/-- Witness for C5 on a two-topic dev split. -/
theorem strict_eval_pooled_witness :
    (∀ i, i < ([[(1:ℚ), -1], [2]] : List (List ℚ)).flatten.length →
      ((strict_preds ([[(1:ℚ), -1], [2]] : List (List ℚ)).flatten).getD i 0 = 1
        ↔ 0 < ([[(1:ℚ), -1], [2]] : List (List ℚ)).flatten.getD i 0))
    ∧ get_recall (strict_preds ([[(1:ℚ), -1], [2]] : List (List ℚ)).flatten)
        ([[(1:ℚ), 0], [0]] : List (List ℚ)).flatten
      = (((([[(1:ℚ), -1], [2]] : List (List ℚ)).zip
            ([[(1:ℚ), 0], [0]] : List (List ℚ))).map fun p =>
            (tpCount (strict_preds p.1) p.2 : ℚ)).sum)
        / ((([[(1:ℚ), 0], [0]] : List (List ℚ)).map fun ls =>
            (posCount ls : ℚ)).sum) :=
  strict_eval_pooled [[1, -1], [2]] [[1, 0], [0]] (by decide) (by decide)

end TrainSpanScorer
